import Mathlib

/-!
Verification development for the `lecture2obsidian` repository.

Each Python function relevant to the verified claims is shallowly embedded
as a Lean definition; machine arithmetic is modelled with `Nat`/`ℚ` and
effects (file system, processes, LLM backend) with explicit state passing
or oracle functions.
-/

namespace Lecture2Obsidian

/-! ### Audio splitting (`split_audio` in `src/app/transcribe.py`)

`split_audio` computes
  `file_size_mb = audio_path.stat().st_size / (1024 * 1024)`
  `num_chunks = int(file_size_mb / max_size_mb) + 1`  (with `max_size_mb = 24`)
  `chunk_duration_ms = len(audio) // num_chunks`
and for `i in range(num_chunks)` exports the slice
  `[i * chunk_duration_ms, i * chunk_duration_ms + chunk_duration_ms)`
for every chunk except the last, whose end is `len(audio)`.

The byte size divided by `1024 * 1024` is exact in Python floats
(division of an integer by a power of two), so the size in MB is modelled
as the exact rational `sizeBytes / 2^20`. -/

/-- `max_size_mb` default argument of `split_audio`. -/
def maxSizeMB : ℕ := 24

/-- `file_size_mb = audio_path.stat().st_size / (1024 * 1024)` as an exact rational. -/
def fileSizeMB (sizeBytes : ℕ) : ℚ := (sizeBytes : ℚ) / (1024 * 1024)

/-- `num_chunks = int(file_size_mb / max_size_mb) + 1`; Python `int()` truncates,
which on a nonnegative value is the floor. -/
def num_chunks (sizeBytes : ℕ) : ℕ :=
  ⌊fileSizeMB sizeBytes / (maxSizeMB : ℚ)⌋₊ + 1

/-- `chunk_duration_ms = len(audio) // num_chunks` (Python floor division). -/
def chunk_duration_ms (sizeBytes totalMs : ℕ) : ℕ :=
  totalMs / num_chunks sizeBytes

/-- The time spans `[start_ms, end_ms)` of the chunks exported by `split_audio`,
in loop order: `start_ms = i * chunk_duration_ms`,
`end_ms = start_ms + chunk_duration_ms if i < num_chunks - 1 else len(audio)`. -/
def split_audio_spans (sizeBytes totalMs : ℕ) : List (ℕ × ℕ) :=
  let n := num_chunks sizeBytes
  let d := chunk_duration_ms sizeBytes totalMs
  (List.range n).map (fun i => (i * d, if i < n - 1 then i * d + d else totalMs))

/-- The chunk count written in the spec's data-model section, taken at the
spec's words: `ceil(fileSizeMB / maxChunkSizeMB)`. -/
def specCeilChunkCount (sizeBytes : ℕ) : ℕ :=
  ⌈fileSizeMB sizeBytes / (maxSizeMB : ℚ)⌉₊

/-- The float/rational chunk-count formula reduces to natural division of the
byte size by `24 * 2^20`. -/
theorem num_chunks_eq_natDiv (s : ℕ) :
    num_chunks s = s / (24 * 1024 * 1024) + 1 := by
  unfold num_chunks fileSizeMB maxSizeMB
  rw [div_div]
  rw [show (1024 * 1024 * ((24 : ℕ) : ℚ)) = ((1024 * 1024 * 24 : ℕ) : ℚ) by push_cast; norm_num]
  rw [Nat.floor_div_nat, Nat.floor_natCast]

/-- The spec's ceiling formula reduces to natural division: it equals
`s / (24 * 2^20)` exactly, rounded up. -/
theorem specCeilChunkCount_eq (s : ℕ) :
    specCeilChunkCount s =
      if (24 * 1024 * 1024 : ℕ) ∣ s then s / (24 * 1024 * 1024)
      else s / (24 * 1024 * 1024) + 1 := by
  unfold specCeilChunkCount fileSizeMB maxSizeMB
  rw [div_div]
  rw [show (1024 * 1024 * ((24 : ℕ) : ℚ)) = ((24 * 1024 * 1024 : ℕ) : ℚ) by push_cast; norm_num]
  by_cases h : (24 * 1024 * 1024 : ℕ) ∣ s
  · simp only [h, if_true]
    obtain ⟨q, hq⟩ := h
    subst hq
    rw [Nat.cast_mul, mul_div_cancel_left₀ _ (by norm_num), Nat.ceil_natCast,
      Nat.mul_div_cancel_left _ (by norm_num)]
  · simp only [h, if_false]
    have hmod : s % (24 * 1024 * 1024) ≠ 0 := by
      intro h0
      exact h (Nat.dvd_of_mod_eq_zero h0)
    rw [Nat.ceil_eq_iff (by omega)]
    constructor
    · rw [Nat.add_sub_cancel, lt_div_iff₀ (by positivity)]
      exact_mod_cast show s / (24 * 1024 * 1024) * (24 * 1024 * 1024) < s by omega
    · rw [div_le_iff₀ (by positivity)]
      exact_mod_cast show s ≤ (s / (24 * 1024 * 1024) + 1) * (24 * 1024 * 1024) by omega

/-- C2 counterexample: a 48 MB file is oversized, yet `split_audio` produces
3 chunks while `ceil(fileSizeMB / 24) = 2`. -/
theorem split_audio_ceil_counterexample :
    24 < fileSizeMB (48 * 1024 * 1024) ∧
    num_chunks (48 * 1024 * 1024) = 3 ∧
    specCeilChunkCount (48 * 1024 * 1024) = 2 ∧
    num_chunks (48 * 1024 * 1024) ≠ specCeilChunkCount (48 * 1024 * 1024) := by
  refine ⟨?_, ?_, ?_, ?_⟩
  · unfold fileSizeMB; norm_num
  · rw [num_chunks_eq_natDiv]
  · rw [specCeilChunkCount_eq]; norm_num
  · rw [num_chunks_eq_natDiv, specCeilChunkCount_eq]; norm_num

/-- C2 (amended): for every oversized file, the chunk count is
`floor(fileSizeMB / 24) + 1`; this equals `ceil(fileSizeMB / 24)` except when
the byte size is an exact multiple of 24 MB, where it is one more than the
ceiling. -/
theorem num_chunks_vs_specCeil (s : ℕ) (_hs : 24 * 1024 * 1024 < s) :
    num_chunks s =
      if (24 * 1024 * 1024 : ℕ) ∣ s then specCeilChunkCount s + 1
      else specCeilChunkCount s := by
  rw [num_chunks_eq_natDiv, specCeilChunkCount_eq]
  by_cases h : (24 * 1024 * 1024 : ℕ) ∣ s <;> simp [h]

/-- Witness for the amended C2 at a concrete 30 MB file. -/
theorem num_chunks_vs_specCeil_witness :
    num_chunks (30 * 1024 * 1024) =
      if (24 * 1024 * 1024 : ℕ) ∣ (30 * 1024 * 1024) then
        specCeilChunkCount (30 * 1024 * 1024) + 1
      else specCeilChunkCount (30 * 1024 * 1024) :=
  num_chunks_vs_specCeil (30 * 1024 * 1024) (by norm_num)

/-- Length of the span list: one span per loop iteration. -/
theorem split_audio_spans_length (s total : ℕ) :
    (split_audio_spans s total).length = num_chunks s := by
  simp [split_audio_spans]

/-- Closed form of the `i`-th span. -/
theorem split_audio_spans_get (s total i : ℕ)
    (hi : i < (split_audio_spans s total).length) :
    (split_audio_spans s total).get ⟨i, hi⟩ =
      (i * chunk_duration_ms s total,
       if i < num_chunks s - 1 then
         i * chunk_duration_ms s total + chunk_duration_ms s total
       else total) := by
  simp [split_audio_spans, chunk_duration_ms]

/-- The common chunk duration times any chunk index stays below the total. -/
theorem chunk_duration_mul_le (s total i : ℕ) (hi : i ≤ num_chunks s) :
    i * chunk_duration_ms s total ≤ total := by
  calc i * chunk_duration_ms s total
      ≤ num_chunks s * chunk_duration_ms s total :=
        Nat.mul_le_mul_right _ hi
    _ = num_chunks s * (total / num_chunks s) := rfl
    _ ≤ total := Nat.mul_div_le total (num_chunks s)

/-- C1: for every audio file over 24 MB, the chunk plan of `split_audio` has
exactly `floor(fileSizeMB / 24) + 1` chunks; taken in index order the spans
start at 0, are contiguous (each span starts where the previous one ends,
so there is no gap and no overlap), the last span ends at `totalDurationMs`,
every span except the last has duration `totalDurationMs / chunkCount`
(integer division), and the last span absorbs the remainder
`totalDurationMs - chunkDurationMs * (chunkCount - 1)`. -/
theorem split_audio_partitions (s total : ℕ) (_hs : 24 * 1024 * 1024 < s) :
    (split_audio_spans s total).length = ⌊fileSizeMB s / 24⌋₊ + 1 ∧
    (∀ h0 : 0 < (split_audio_spans s total).length,
      ((split_audio_spans s total).get ⟨0, h0⟩).1 = 0) ∧
    (∀ i (h1 : i + 1 < (split_audio_spans s total).length),
      ((split_audio_spans s total).get ⟨i + 1, h1⟩).1 =
        ((split_audio_spans s total).get ⟨i, Nat.lt_of_succ_lt h1⟩).2) ∧
    (∀ h0 : 0 < (split_audio_spans s total).length,
      ((split_audio_spans s total).get
        ⟨(split_audio_spans s total).length - 1, Nat.sub_lt h0 Nat.one_pos⟩).2 = total) ∧
    (∀ i (hi : i < (split_audio_spans s total).length),
      ((split_audio_spans s total).get ⟨i, hi⟩).1 ≤
        ((split_audio_spans s total).get ⟨i, hi⟩).2) ∧
    (∀ i (hi : i < (split_audio_spans s total).length),
      i + 1 < (split_audio_spans s total).length →
      ((split_audio_spans s total).get ⟨i, hi⟩).2 -
        ((split_audio_spans s total).get ⟨i, hi⟩).1 = total / num_chunks s) ∧
    (∀ h0 : 0 < (split_audio_spans s total).length,
      ((split_audio_spans s total).get
          ⟨(split_audio_spans s total).length - 1, Nat.sub_lt h0 Nat.one_pos⟩).2 -
        ((split_audio_spans s total).get
          ⟨(split_audio_spans s total).length - 1, Nat.sub_lt h0 Nat.one_pos⟩).1 =
        total - chunk_duration_ms s total * (num_chunks s - 1)) := by
  have hlen := split_audio_spans_length s total
  have hn : 0 < num_chunks s := by unfold num_chunks; omega
  refine ⟨?_, ?_, ?_, ?_, ?_, ?_, ?_⟩
  · rw [hlen]
    unfold num_chunks maxSizeMB
    norm_num
  · intro h0
    rw [split_audio_spans_get]
    simp
  · intro i h1
    rw [split_audio_spans_get, split_audio_spans_get]
    have : i < num_chunks s - 1 := by omega
    simp only [this, if_pos]
    ring
  · intro h0
    rw [split_audio_spans_get]
    have : ¬ (split_audio_spans s total).length - 1 < num_chunks s - 1 := by omega
    simp only [hlen] at this ⊢
    simp [this]
  · intro i hi
    rw [split_audio_spans_get]
    by_cases hlast : i < num_chunks s - 1
    · simp [hlast]
    · simp only [hlast, if_neg, if_false]
      exact chunk_duration_mul_le s total i (by omega)
  · intro i hi hnext
    rw [split_audio_spans_get]
    have : i < num_chunks s - 1 := by omega
    simp only [this, if_pos]
    simp [chunk_duration_ms]
  · intro h0
    rw [split_audio_spans_get]
    have : ¬ (split_audio_spans s total).length - 1 < num_chunks s - 1 := by omega
    simp only [hlen] at this ⊢
    simp only [this, if_neg, if_false]
    rw [Nat.mul_comm]

/-- Witness for C1 at a concrete 25 MB file of 100000 ms. -/
theorem split_audio_partitions_witness :
    (split_audio_spans (25 * 1024 * 1024) 100000).length =
      ⌊fileSizeMB (25 * 1024 * 1024) / 24⌋₊ + 1 :=
  (split_audio_partitions (25 * 1024 * 1024) 100000 (by norm_num)).1

/-! ### Transcript chunking (`_chunk_transcript` in `src/summarize.py`)

The Python function splits `transcript.split()` (its word sequence) into
overlapping windows:
```
words = transcript.split(); chunks = []; start = 0
while start < len(words):
    end = start + _CHUNK_WORDS
    chunks.append(" ".join(words[start:end]))
    if end >= len(words): break
    start = end - _OVERLAP_WORDS
```
A transcript is modelled by its word sequence (the result of `.split()`),
and each chunk by its word sequence (the argument of `" ".join`). -/

/-- `_CHUNK_WORDS = 8_000`. -/
def CHUNK_WORDS : ℕ := 8000

/-- `_OVERLAP_WORDS = 500`. -/
def OVERLAP_WORDS : ℕ := 500

/-- The chunking loop from a given window start index. Each iteration emits
`words[start:start + _CHUNK_WORDS]`; if the window end is short of the word
count, the next window starts `_OVERLAP_WORDS` before the current end. -/
def chunkFrom (words : List α) (start : ℕ) : List (List α) :=
  if _h : start < words.length then
    if words.length ≤ start + CHUNK_WORDS then
      [(words.drop start).take CHUNK_WORDS]
    else
      (words.drop start).take CHUNK_WORDS ::
        chunkFrom words (start + CHUNK_WORDS - OVERLAP_WORDS)
  else []
termination_by words.length - start
decreasing_by simp only [CHUNK_WORDS, OVERLAP_WORDS]; omega

/-- `_chunk_transcript`, on the word sequence of the transcript. -/
def chunk_transcript (words : List α) : List (List α) :=
  chunkFrom words 0

/-- The word-index spans `[start, end)` of the emitted chunks, where the
recorded end is the actual content end `min(start + _CHUNK_WORDS, len(words))`. -/
def chunkSpansFrom (n start : ℕ) : List (ℕ × ℕ) :=
  if _h : start < n then
    if n ≤ start + CHUNK_WORDS then
      [(start, n)]
    else
      (start, start + CHUNK_WORDS) ::
        chunkSpansFrom n (start + CHUNK_WORDS - OVERLAP_WORDS)
  else []
termination_by n - start
decreasing_by simp only [CHUNK_WORDS, OVERLAP_WORDS]; omega

/-- The spans of the whole transcript's chunk plan. -/
def chunk_spans (n : ℕ) : List (ℕ × ℕ) :=
  chunkSpansFrom n 0

/-- The span list is empty exactly when the word range is empty. -/
theorem chunkSpansFrom_eq_nil_iff (n start : ℕ) :
    chunkSpansFrom n start = [] ↔ n ≤ start := by
  rw [chunkSpansFrom]
  by_cases h : start < n
  · simp only [h, dif_pos]
    constructor
    · intro he
      by_cases h2 : n ≤ start + CHUNK_WORDS <;> simp [h2] at he
    · omega
  · simp [h]; omega

/-- The chunk list emitted by the loop is the span list read back through
list slicing: chunk `i` is `words[spanᵢ.start : spanᵢ.end]`. -/
theorem chunkFrom_eq_spans (words : List α) : ∀ k start, words.length - start ≤ k →
    chunkFrom words start =
      (chunkSpansFrom words.length start).map
        (fun p => (words.drop p.1).take (p.2 - p.1)) := by
  intro k
  induction k with
  | zero =>
    intro start hk
    rw [chunkFrom, chunkSpansFrom]
    have h : ¬ start < words.length := by omega
    simp [h]
  | succ k ih =>
    intro start hk
    rw [chunkFrom, chunkSpansFrom]
    by_cases h : start < words.length
    · rw [dif_pos h, dif_pos h]
      by_cases h2 : words.length ≤ start + CHUNK_WORDS
      · rw [if_pos h2, if_pos h2, List.map_cons, List.map_nil]
        have hlen : (words.drop start).length = words.length - start :=
          List.length_drop start words
        have : (words.drop start).take CHUNK_WORDS =
            (words.drop start).take (words.length - start) := by
          rw [List.take_of_length_le (by omega), List.take_of_length_le (by omega)]
        rw [this]
      · rw [if_neg h2, if_neg h2, List.map_cons]
        have hcw : CHUNK_WORDS = 8000 := rfl
        have hov : OVERLAP_WORDS = 500 := rfl
        have harith : start + CHUNK_WORDS - start = CHUNK_WORDS := by omega
        rw [harith, ih (start + CHUNK_WORDS - OVERLAP_WORDS) (by omega)]
    · rw [dif_neg h, dif_neg h, List.map_nil]

/-- Full-transcript instance of `chunkFrom_eq_spans`. -/
theorem chunk_transcript_eq_spans (words : List α) :
    chunk_transcript words =
      (chunk_spans words.length).map
        (fun p => (words.drop p.1).take (p.2 - p.1)) :=
  chunkFrom_eq_spans words words.length 0 (by omega)

/-- Head of the span list: the first span starts at `start` and ends at
`min (start + _CHUNK_WORDS) n`. -/
theorem chunkSpansFrom_head (n start : ℕ) (h : start < n) :
    (chunkSpansFrom n start).head? = some (start, min (start + CHUNK_WORDS) n) := by
  rw [chunkSpansFrom, dif_pos h]
  by_cases h2 : n ≤ start + CHUNK_WORDS
  · rw [if_pos h2, min_eq_right h2]
    rfl
  · rw [if_neg h2, min_eq_left (by omega)]
    rfl

/-- Master chain property of consecutive spans: the next span starts
`_OVERLAP_WORDS` before the current recorded end, exactly
`_CHUNK_WORDS - _OVERLAP_WORDS` after the current start, every span with a
successor has width exactly `_CHUNK_WORDS`, and starts strictly increase. -/
theorem chunkSpansFrom_chain (n : ℕ) : ∀ k start, n - start ≤ k →
    List.Chain' (fun p q => q.1 = p.2 - OVERLAP_WORDS ∧
      q.1 = p.1 + (CHUNK_WORDS - OVERLAP_WORDS) ∧
      p.2 = p.1 + CHUNK_WORDS ∧ p.1 < q.1)
      (chunkSpansFrom n start) := by
  intro k
  induction k with
  | zero =>
    intro start hk
    rw [chunkSpansFrom, dif_neg (by omega)]
    simp
  | succ k ih =>
    intro start hk
    have hcw : CHUNK_WORDS = 8000 := rfl
    have hov : OVERLAP_WORDS = 500 := rfl
    rw [chunkSpansFrom]
    by_cases h : start < n
    · rw [dif_pos h]
      by_cases h2 : n ≤ start + CHUNK_WORDS
      · rw [if_pos h2]
        simp
      · rw [if_neg h2]
        refine List.Chain'.cons' (ih _ (by omega)) ?_
        intro y hy
        rw [chunkSpansFrom_head n _ (by omega)] at hy
        simp only [Option.mem_def, Option.some_inj] at hy
        subst hy
        refine ⟨by omega, by omega, by omega, by omega⟩
    · rw [dif_neg h]
      simp

/-- The last span of a nonempty span list ends at `n`. -/
theorem chunkSpansFrom_last (n : ℕ) : ∀ k start, n - start ≤ k →
    ∀ hne : chunkSpansFrom n start ≠ [],
      ((chunkSpansFrom n start).getLast hne).2 = n := by
  intro k
  induction k with
  | zero =>
    intro start hk hne
    exact absurd ((chunkSpansFrom_eq_nil_iff n start).2 (by omega)) hne
  | succ k ih =>
    intro start hk hne
    have hcw : CHUNK_WORDS = 8000 := rfl
    have hov : OVERLAP_WORDS = 500 := rfl
    by_cases h : start < n
    · by_cases h2 : n ≤ start + CHUNK_WORDS
      · have he : chunkSpansFrom n start = [(start, n)] := by
          rw [chunkSpansFrom, dif_pos h, if_pos h2]
        revert hne
        rw [he]
        intro hne
        rfl
      · have htl : chunkSpansFrom n (start + CHUNK_WORDS - OVERLAP_WORDS) ≠ [] := by
          intro hnil
          rw [chunkSpansFrom_eq_nil_iff] at hnil
          omega
        have he : chunkSpansFrom n start =
            (start, start + CHUNK_WORDS) ::
              chunkSpansFrom n (start + CHUNK_WORDS - OVERLAP_WORDS) := by
          rw [chunkSpansFrom, dif_pos h, if_neg h2]
        revert hne
        rw [he]
        intro hne
        rw [List.getLast_cons htl]
        exact ih _ (by omega) htl
    · exact absurd ((chunkSpansFrom_eq_nil_iff n start).2 (by omega)) hne

/-- Every span lies inside `[start, n)` and is nonempty. -/
theorem chunkSpansFrom_bounds (n : ℕ) : ∀ k start, n - start ≤ k →
    ∀ p ∈ chunkSpansFrom n start, start ≤ p.1 ∧ p.1 < p.2 ∧ p.2 ≤ n := by
  intro k
  induction k with
  | zero =>
    intro start hk p hp
    rw [(chunkSpansFrom_eq_nil_iff n start).2 (by omega)] at hp
    exact absurd hp (List.not_mem_nil p)
  | succ k ih =>
    intro start hk p hp
    have hcw : CHUNK_WORDS = 8000 := rfl
    have hov : OVERLAP_WORDS = 500 := rfl
    rw [chunkSpansFrom] at hp
    by_cases h : start < n
    · rw [dif_pos h] at hp
      by_cases h2 : n ≤ start + CHUNK_WORDS
      · rw [if_pos h2] at hp
        simp only [List.mem_singleton] at hp
        subst hp
        exact ⟨le_refl _, h, le_refl _⟩
      · rw [if_neg h2] at hp
        rcases List.mem_cons.1 hp with hp | hp
        · subst hp
          exact ⟨le_refl _, by omega, by omega⟩
        · have := ih _ (by omega) p hp
          exact ⟨by omega, this.2.1, this.2.2⟩
    · rw [dif_neg h] at hp
      exact absurd hp (List.not_mem_nil p)

/-- The loop makes finitely many iterations: each one advances the window by
`_CHUNK_WORDS - _OVERLAP_WORDS` words, bounding the chunk count. -/
theorem chunkSpansFrom_length (n : ℕ) : ∀ k start, n - start ≤ k →
    (chunkSpansFrom n start).length * (CHUNK_WORDS - OVERLAP_WORDS) ≤
      (n - start) + (CHUNK_WORDS - OVERLAP_WORDS) := by
  intro k
  induction k with
  | zero =>
    intro start hk
    rw [(chunkSpansFrom_eq_nil_iff n start).2 (by omega)]
    simp
  | succ k ih =>
    intro start hk
    have hcw : CHUNK_WORDS = 8000 := rfl
    have hov : OVERLAP_WORDS = 500 := rfl
    rw [chunkSpansFrom]
    by_cases h : start < n
    · rw [dif_pos h]
      by_cases h2 : n ≤ start + CHUNK_WORDS
      · rw [if_pos h2]
        simp only [List.length_singleton]
        omega
      · rw [if_neg h2]
        have h75 : CHUNK_WORDS - OVERLAP_WORDS = 7500 := rfl
        have := ih (start + CHUNK_WORDS - OVERLAP_WORDS) (by omega)
        rw [h75] at this
        rw [List.length_cons, h75]
        omega
    · rw [dif_neg h]
      simp

/-- C4: for every transcript, the chunk plan of `_chunk_transcript` is the
span plan read back through slicing; in the span plan, chunk `i+1` starts at
`chunk_i.end - overlapWords` (with every non-final chunk of width exactly
`chunkWords`), starts strictly increase (chunks appear in transcript order),
and the final chunk's end equals the transcript's total word count. -/
theorem chunk_transcript_span_structure {α : Type} (words : List α) :
    chunk_transcript words =
      (chunk_spans words.length).map (fun p => (words.drop p.1).take (p.2 - p.1)) ∧
    (∀ i (h1 : i + 1 < (chunk_spans words.length).length),
      ((chunk_spans words.length).get ⟨i + 1, h1⟩).1 =
        ((chunk_spans words.length).get ⟨i, Nat.lt_of_succ_lt h1⟩).2 - OVERLAP_WORDS ∧
      ((chunk_spans words.length).get ⟨i, Nat.lt_of_succ_lt h1⟩).2 =
        ((chunk_spans words.length).get ⟨i, Nat.lt_of_succ_lt h1⟩).1 + CHUNK_WORDS ∧
      ((chunk_spans words.length).get ⟨i, Nat.lt_of_succ_lt h1⟩).1 <
        ((chunk_spans words.length).get ⟨i + 1, h1⟩).1) ∧
    (∀ hne : chunk_spans words.length ≠ [],
      ((chunk_spans words.length).getLast hne).2 = words.length) := by
  refine ⟨chunk_transcript_eq_spans words, ?_, ?_⟩
  · intro i h1
    have e : chunk_spans words.length = chunkSpansFrom words.length 0 := rfl
    rw [e] at h1
    have hchain := chunkSpansFrom_chain words.length words.length 0 (by omega)
    have := List.chain'_iff_get.1 hchain i (by omega)
    exact ⟨this.1, this.2.2.1, this.2.2.2⟩
  · intro hne
    exact chunkSpansFrom_last words.length words.length 0 (by omega) hne

/-- Concrete evaluation of the span plan for a 9000-word transcript. -/
theorem chunk_spans_9000 : chunk_spans 9000 = [(0, 8000), (7500, 9000)] := by
  rw [chunk_spans, chunkSpansFrom, dif_pos (by norm_num),
    if_neg (by norm_num [CHUNK_WORDS]),
    chunkSpansFrom, dif_pos (by norm_num [CHUNK_WORDS, OVERLAP_WORDS]),
    if_pos (by norm_num [CHUNK_WORDS, OVERLAP_WORDS])]
  norm_num [CHUNK_WORDS, OVERLAP_WORDS]

/-- Witness for C4 on a concrete 9000-word transcript (two chunks). -/
theorem chunk_transcript_span_structure_witness :
    ((chunk_spans (List.replicate 9000 (0 : ℕ)).length).get
        ⟨0 + 1, by rw [List.length_replicate, chunk_spans_9000]; decide⟩).1 =
      ((chunk_spans (List.replicate 9000 (0 : ℕ)).length).get
        ⟨0, by rw [List.length_replicate, chunk_spans_9000]; decide⟩).2 -
          OVERLAP_WORDS ∧
    ((chunk_spans (List.replicate 9000 (0 : ℕ)).length).getLast
        (by rw [List.length_replicate, chunk_spans_9000]; decide)).2 =
      (List.replicate 9000 (0 : ℕ)).length :=
  ⟨((chunk_transcript_span_structure (List.replicate 9000 (0 : ℕ))).2.1 0
      (by rw [List.length_replicate, chunk_spans_9000]; decide)).1,
   (chunk_transcript_span_structure (List.replicate 9000 (0 : ℕ))).2.2
    (by rw [List.length_replicate, chunk_spans_9000]; decide)⟩

/-- C9: the chunking loop terminates with a finite chunk list (the loop
advances each window start by exactly `chunkWords - overlapWords = 7500`
words, so the chunk count is bounded by `wordCount / 7500 + 1`), every
emitted chunk is non-empty, and a non-empty transcript yields at least one
chunk. -/
theorem chunk_transcript_terminates {α : Type} (words : List α) (h : words ≠ []) :
    chunk_transcript words ≠ [] ∧
    (∀ c ∈ chunk_transcript words, c ≠ []) ∧
    (chunk_transcript words).length * (CHUNK_WORDS - OVERLAP_WORDS) ≤
      words.length + (CHUNK_WORDS - OVERLAP_WORDS) ∧
    List.Chain' (fun p q => q.1 = p.1 + (CHUNK_WORDS - OVERLAP_WORDS))
      (chunk_spans words.length) := by
  have hpos : 0 < words.length := List.length_pos.2 h
  refine ⟨?_, ?_, ?_, ?_⟩
  · rw [chunk_transcript_eq_spans]
    simp only [ne_eq, List.map_eq_nil_iff]
    intro hnil
    rw [chunk_spans, chunkSpansFrom_eq_nil_iff] at hnil
    omega
  · intro c hc
    rw [chunk_transcript_eq_spans] at hc
    obtain ⟨p, hp, rfl⟩ := List.mem_map.1 hc
    have hb := chunkSpansFrom_bounds words.length words.length 0 (by omega) p hp
    apply List.ne_nil_of_length_pos
    rw [List.length_take, List.length_drop]
    omega
  · rw [chunk_transcript_eq_spans, List.length_map]
    exact chunkSpansFrom_length words.length words.length 0 (by omega)
  · exact (chunkSpansFrom_chain words.length words.length 0 (by omega)).imp
      (fun _ _ hab => hab.2.1)

/-- Witness for C9 on the one-word transcript. -/
theorem chunk_transcript_terminates_witness :
    chunk_transcript [(0 : ℕ)] ≠ [] :=
  (chunk_transcript_terminates [(0 : ℕ)] (by decide)).1

/-- The re-assembly of a chunk list: keep the first chunk whole, drop the
leading `_OVERLAP_WORDS` duplicated words of every later chunk, and
concatenate. -/
def dedupedConcat (chunks : List (List α)) : List α :=
  match chunks with
  | [] => []
  | c :: cs => c ++ (cs.map (fun l => l.drop OVERLAP_WORDS)).flatten

/-- Unfolding equation of `dedupedConcat` on a cons cell. -/
theorem dedupedConcat_cons (c : List α) (cs : List (List α)) :
    dedupedConcat (c :: cs) = c ++ (cs.map (fun l => l.drop OVERLAP_WORDS)).flatten :=
  rfl

/-- From any window start inside the transcript, dropping the first
`_OVERLAP_WORDS` words of every chunk and concatenating gives the suffix of
the transcript from `start + _OVERLAP_WORDS`. -/
theorem chunkFrom_drop_flatten {α : Type} (words : List α) :
    ∀ k start, words.length - start ≤ k → start < words.length →
    ((chunkFrom words start).map (fun c => c.drop OVERLAP_WORDS)).flatten =
      words.drop (start + OVERLAP_WORDS) := by
  intro k
  induction k with
  | zero =>
    intro start hk hlt
    omega
  | succ k ih =>
    intro start hk hlt
    have hcw : CHUNK_WORDS = 8000 := rfl
    have hov : OVERLAP_WORDS = 500 := rfl
    rw [chunkFrom, dif_pos hlt]
    by_cases h2 : words.length ≤ start + CHUNK_WORDS
    · rw [if_pos h2]
      rw [List.map_cons, List.map_nil, List.flatten_cons, List.flatten_nil,
        List.append_nil]
      rw [List.take_of_length_le (by rw [List.length_drop]; omega), List.drop_drop]
    · rw [if_neg h2]
      rw [List.map_cons, List.flatten_cons]
      rw [ih (start + CHUNK_WORDS - OVERLAP_WORDS) (by omega) (by omega)]
      have e1 : start + CHUNK_WORDS - OVERLAP_WORDS + OVERLAP_WORDS =
          start + CHUNK_WORDS := by omega
      rw [e1, List.drop_take, List.drop_drop]
      have e2 : start + CHUNK_WORDS =
          start + OVERLAP_WORDS + (CHUNK_WORDS - OVERLAP_WORDS) := by omega
      rw [e2, Eq.symm (List.drop_drop (CHUNK_WORDS - OVERLAP_WORDS)
          (start + OVERLAP_WORDS) words),
        List.take_append_drop]

/-- C10: concatenating the chunks of `_chunk_transcript`, after dropping the
first `overlapWords` words of every chunk except the first, restores exactly
the transcript's word sequence — nothing lost, nothing duplicated beyond
the declared overlap, order preserved. -/
theorem chunk_transcript_reassembles {α : Type} (words : List α) :
    dedupedConcat (chunk_transcript words) = words := by
  by_cases hw : words = []
  · subst hw
    rw [chunk_transcript, chunkFrom, dif_neg (by simp)]
    rfl
  · have hpos : 0 < words.length := List.length_pos.2 hw
    have hcw : CHUNK_WORDS = 8000 := rfl
    have hov : OVERLAP_WORDS = 500 := rfl
    rw [chunk_transcript, chunkFrom, dif_pos hpos]
    by_cases h2 : words.length ≤ 0 + CHUNK_WORDS
    · rw [if_pos h2, dedupedConcat_cons, List.map_nil, List.flatten_nil,
        List.append_nil, List.drop_zero, List.take_of_length_le (by omega)]
    · rw [if_neg h2, dedupedConcat_cons]
      rw [chunkFrom_drop_flatten words words.length
        (0 + CHUNK_WORDS - OVERLAP_WORDS) (by omega) (by omega)]
      have e1 : 0 + CHUNK_WORDS - OVERLAP_WORDS + OVERLAP_WORDS = CHUNK_WORDS := by
        omega
      rw [e1, List.drop_zero, List.take_append_drop]

/-! ### Summarization (`summarize_transcript` in `src/summarize.py`)

`summarize_transcript` computes `word_count = len(transcript.split())`.
If `word_count <= 10_000` it makes a single `_call_llm(_SYSTEM_PROMPT, …)`
on the whole transcript; otherwise it chunks the transcript, makes one
`_call_llm(_SYSTEM_PROMPT, …)` per chunk in a `for` loop over the chunks in
order, collecting partial summaries, and finally makes a single
`_call_llm(_MERGE_SYSTEM_PROMPT, …)` on the joined partial summaries.

The transcript is modelled by its word sequence; the chat backend is an
oracle function `llm`; the context header and part labels interpolated into
the user message are inert formatting and the user payload of a call is
modelled by the word list it carries. -/

/-- The two fixed system prompts of `src/summarize.py` (`_SYSTEM_PROMPT` and
`_MERGE_SYSTEM_PROMPT` are fixed string literals; their wording is inert for
the claims, so they are modelled as the two values of this type). -/
inductive SystemPrompt
  | notes
  | merge
deriving DecidableEq

/-- One chat-completion backend call: the system prompt used and the words
in the user payload (for a chunk call, the chunk's words; for the merge
call, the collected partial summaries). -/
structure ChatCall where
  system : SystemPrompt
  user : List String
deriving DecidableEq

/-- The `for i, chunk in enumerate(chunks, 1)` loop: one
`_call_llm(_SYSTEM_PROMPT, …)` per chunk, in order, appending each response
to `partial_summaries`. Returns (calls made, partial summaries). -/
def summarizeChunksLoop (llm : SystemPrompt → List String → String) :
    List (List String) → List ChatCall × List String
  | [] => ([], [])
  | c :: cs =>
    let r := llm SystemPrompt.notes c
    let rest := summarizeChunksLoop llm cs
    (⟨SystemPrompt.notes, c⟩ :: rest.1, r :: rest.2)

/-- `summarize_transcript`, returning the final summary together with the
list of backend calls made, in order. -/
def summarize_transcript (llm : SystemPrompt → List String → String)
    (words : List String) : String × List ChatCall :=
  if words.length ≤ 10000 then
    (llm SystemPrompt.notes words, [⟨SystemPrompt.notes, words⟩])
  else
    let loop := summarizeChunksLoop llm (chunk_transcript words)
    (llm SystemPrompt.merge loop.2, loop.1 ++ [⟨SystemPrompt.merge, loop.2⟩])

/-- The chunk loop makes exactly the chunk calls, in chunk order, and
collects exactly the per-chunk responses, in order. -/
theorem summarizeChunksLoop_eq (llm : SystemPrompt → List String → String)
    (cs : List (List String)) :
    summarizeChunksLoop llm cs =
      (cs.map (fun c => ⟨SystemPrompt.notes, c⟩),
       cs.map (llm SystemPrompt.notes)) := by
  induction cs with
  | nil => rfl
  | cons c cs ih => simp [summarizeChunksLoop, ih]

/-- C3: a transcript of at most 10000 words is summarized with exactly one
backend call, carrying the fixed note-taking system prompt and the whole
transcript; a longer transcript is summarized with exactly one call per
chunk of the chunk plan, in chunk order, followed by exactly one merge call
on the collected partial summaries — and no other calls. -/
theorem summarize_transcript_calls (llm : SystemPrompt → List String → String)
    (words : List String) :
    (words.length ≤ 10000 →
      (summarize_transcript llm words).2 =
        [⟨SystemPrompt.notes, words⟩]) ∧
    (10000 < words.length →
      (summarize_transcript llm words).2 =
        (chunk_transcript words).map (fun c => ⟨SystemPrompt.notes, c⟩) ++
          [⟨SystemPrompt.merge,
            (chunk_transcript words).map (llm SystemPrompt.notes)⟩]) := by
  constructor
  · intro h
    rw [summarize_transcript, if_pos h]
  · intro h
    rw [summarize_transcript, if_neg (by omega), summarizeChunksLoop_eq]

/-- Witness for C3 on a 3-word and a 10001-word transcript. -/
theorem summarize_transcript_calls_witness :
    (summarize_transcript (fun _ _ => "s") (List.replicate 3 "w")).2 =
      [⟨SystemPrompt.notes, List.replicate 3 "w"⟩] ∧
    (summarize_transcript (fun _ _ => "s") (List.replicate 10001 "w")).2 =
      (chunk_transcript (List.replicate 10001 "w")).map
          (fun c => ⟨SystemPrompt.notes, c⟩) ++
        [⟨SystemPrompt.merge,
          (chunk_transcript (List.replicate 10001 "w")).map
            ((fun _ _ => "s") SystemPrompt.notes)⟩] :=
  ⟨(summarize_transcript_calls (fun _ _ => "s") (List.replicate 3 "w")).1
     (by rw [List.length_replicate]; norm_num),
   (summarize_transcript_calls (fun _ _ => "s") (List.replicate 10001 "w")).2
     (by rw [List.length_replicate]; norm_num)⟩

/-! ### Recording state store (`src/app/state.py`)

The marker file `recording.pid` is modelled by `Option MarkerRaw`: `none`
when the file is absent. `yaml.safe_load` is modelled as fallible
(`Except`): it raises on unparseable text, returns a null document for an
empty file, and otherwise returns a mapping whose `pid` entry is optional
(`dict.get("pid")`). The `os.kill(pid, 0)` probe is an oracle returning one
of: success, `ProcessLookupError`, `PermissionError`. -/

/-- Raw content of the marker file, as far as parsing distinguishes it. -/
inductive MarkerRaw
  | malformed
  | yamlNull
  | mapping (pid : Option ℕ)
deriving DecidableEq

/-- Outcome of the `os.kill(pid, 0)` probe. -/
inductive KillProbe
  | alive
  | dead
  | denied
deriving DecidableEq

/-- `yaml.safe_load` on the marker file's content: raises on malformed text
(modelled as `Except.error`), otherwise returns the loaded document (`none`
for a null document, `some pid?` for a mapping and its `pid` entry). -/
def safe_load : MarkerRaw → Except Unit (Option (Option ℕ))
  | .malformed => .error ()
  | .yamlNull => .ok none
  | .mapping pid => .ok (some pid)

/-- `get_recording_info`: `None` when the file is missing; otherwise
`yaml.safe_load` under `try/except Exception: return None`. Total (never
raises): the parse error is caught and becomes `none`. -/
def get_recording_info (file : Option MarkerRaw) : Option (Option ℕ) :=
  match file with
  | none => none
  | some raw =>
    match safe_load raw with
    | .error _ => none
    | .ok doc => doc

/-- `is_recording`, returning the boolean result together with the marker
file state it leaves behind (`clear_state()` removes the file). -/
def is_recording (file : Option MarkerRaw) (kill : ℕ → KillProbe) :
    Bool × Option MarkerRaw :=
  match file with
  | none => (false, none)
  | some raw =>
    match get_recording_info (some raw) with
    | none => (false, some raw)
    | some info =>
      match info with
      | none => (false, none)
      | some pid =>
        match kill pid with
        | .alive => (true, some raw)
        | .dead => (false, none)
        | .denied => (true, some raw)

/-- C5: when the marker stores a pid of a dead process, `is_recording`
returns false and clears the marker; when the probe reports the process
alive — or fails only with a permission error, conservatively treated as
alive — it returns true and leaves the marker untouched; and
`get_recording_info` on a missing or malformed (unparseable) marker returns
absent — it catches the parse error rather than raising. -/
theorem is_recording_probe (file : Option MarkerRaw) (kill : ℕ → KillProbe) :
    (∀ pid, file = some (MarkerRaw.mapping (some pid)) → kill pid = .dead →
      is_recording file kill = (false, none)) ∧
    (∀ pid, file = some (MarkerRaw.mapping (some pid)) →
      (kill pid = .alive ∨ kill pid = .denied) →
      is_recording file kill = (true, file)) ∧
    get_recording_info none = none ∧
    get_recording_info (some MarkerRaw.malformed) = none := by
  refine ⟨?_, ?_, rfl, rfl⟩
  · intro pid hf hk
    subst hf
    simp [is_recording, get_recording_info, safe_load, hk]
  · intro pid hf hk
    subst hf
    rcases hk with hk | hk <;>
      simp [is_recording, get_recording_info, safe_load, hk]

/-- Witness for C5 with concrete markers and probes. -/
theorem is_recording_probe_witness :
    is_recording (some (MarkerRaw.mapping (some 7))) (fun _ => .dead) =
      (false, none) ∧
    is_recording (some (MarkerRaw.mapping (some 7))) (fun _ => .denied) =
      (true, some (MarkerRaw.mapping (some 7))) :=
  ⟨(is_recording_probe (some (MarkerRaw.mapping (some 7))) (fun _ => .dead)).1
      7 rfl rfl,
   (is_recording_probe (some (MarkerRaw.mapping (some 7))) (fun _ => .denied)).2.1
      7 rfl (Or.inr rfl)⟩

/-- C6 counterexample: on a corrupt (unparseable) marker, `is_recording`
does return false (treated as Idle, no hard error), but the marker file is
left in place — it is not cleared, contradicting the claim that the marker
is absent afterwards. -/
theorem is_recording_corrupt_counterexample :
    is_recording (some MarkerRaw.malformed) (fun _ => .alive) =
      (false, some MarkerRaw.malformed) ∧
    (is_recording (some MarkerRaw.malformed) (fun _ => .alive)).2 ≠ none :=
  ⟨rfl, by decide⟩

/-- C6 (amended): every state-consistency error is recovered silently as
Idle with no hard error: a marker referencing a dead process is cleared, a
parsed marker lacking a pid is cleared, but a corrupt (unparseable) marker,
while also reported as not recording, is left in place rather than
cleared. -/
theorem is_recording_recovers (file : Option MarkerRaw) (kill : ℕ → KillProbe) :
    (∀ pid, file = some (MarkerRaw.mapping (some pid)) → kill pid = .dead →
      is_recording file kill = (false, none)) ∧
    (file = some (MarkerRaw.mapping none) →
      is_recording file kill = (false, none)) ∧
    (file = some MarkerRaw.malformed →
      is_recording file kill = (false, file)) ∧
    (file = some MarkerRaw.yamlNull →
      is_recording file kill = (false, file)) := by
  refine ⟨?_, ?_, ?_, ?_⟩
  · intro pid hf hk
    subst hf
    simp [is_recording, get_recording_info, safe_load, hk]
  · intro hf
    subst hf
    rfl
  · intro hf
    subst hf
    rfl
  · intro hf
    subst hf
    rfl

/-- Witness for the amended C6 with concrete markers. -/
theorem is_recording_recovers_witness :
    is_recording (some (MarkerRaw.mapping (some 3))) (fun _ => .dead) =
      (false, none) ∧
    is_recording (some (MarkerRaw.mapping none)) (fun _ => .alive) =
      (false, none) ∧
    is_recording (some MarkerRaw.malformed) (fun _ => .dead) =
      (false, some MarkerRaw.malformed) :=
  ⟨(is_recording_recovers (some (MarkerRaw.mapping (some 3))) (fun _ => .dead)).1
      3 rfl rfl,
   (is_recording_recovers (some (MarkerRaw.mapping none)) (fun _ => .alive)).2.1
      rfl,
   (is_recording_recovers (some MarkerRaw.malformed) (fun _ => .dead)).2.2.1
      rfl⟩

/-! ### The background pipeline (`record_internal` in `src/app/cli.py`)

After `recorder.start()` (whose failure notifies a mic error, clears state
and exits 1) and the stop signal, the pipeline runs inside one `try`:
`recorder.stop()` → `load_config` → `transcribe_audio` →
`summarize_transcript` → `write_notes` → `_archive_wav` → success
notification; the `except Exception` branch notifies failure, clears state
and exits 1; the success path clears state after the `try`. `_archive_wav`
either moves the WAV to an archive directory or deletes it (no archive dir
configured).

Failure modes. `recorder.stop()` (RuntimeError / ValueError), `write_notes`
and `_archive_wav` (OS errors) fail by raising an `Exception`, which
`except Exception:` catches. But `load_config` (`src/app/writer.py`, missing
config), `transcribe_audio` (through `transcribe_local` and
`_transcribe_single` in `src/app/transcribe.py`) and `summarize_transcript`
(through `_call_llm` in `src/summarize.py`) handle their errors by calling
`sys.exit(1)`: that raises `SystemExit`, a `BaseException` that
`except Exception:` does NOT catch, so the process terminates on the spot,
skipping both the failure notification and the trailing `clear_state()`.
A stage outcome is therefore three-valued. -/

/-- The three notifications `record_internal` can emit. -/
inductive PNotif
  | micError
  | success
  | failure
deriving DecidableEq

/-- Outcome of one pipeline stage: success, a raised `Exception` (caught by
the pipeline's `except Exception:`), or `sys.exit(1)` — an uncaught
`SystemExit` that terminates the process immediately. -/
inductive StepOutcome (α : Type)
  | ok (a : α)
  | raises
  | exits
deriving DecidableEq

/-- Sequencing of two stages: a raised exception or a `SystemExit`
short-circuits past the second stage. -/
def seqStep {α β : Type} (s : StepOutcome α) (next : α → StepOutcome β) :
    StepOutcome β :=
  match s with
  | .ok a => next a
  | .raises => .raises
  | .exits => .exits

/-- A stage that can only raise (it contains no `sys.exit` call), viewed as
a three-valued outcome. -/
def liftRaise {α : Type} : Except Unit α → StepOutcome α
  | .ok a => .ok a
  | .error _ => .raises

/-- Outcomes of the collaborators of one run. `recorder.stop()`,
`write_notes` and `_archive_wav` only raise, so they are `Except`;
`load_config`, the transcription backends and the summarizer can also call
`sys.exit(1)`, so those stages are `StepOutcome`. `_archive_wav`'s result
records whether the WAV was discarded (`true`) or moved to the archive. -/
structure RunEnv where
  startOk : Bool
  stopRes : Except Unit ℕ
  configRes : StepOutcome Unit
  transcribeRes : StepOutcome Unit
  summarizeRes : StepOutcome Unit
  writeRes : Except Unit Unit
  archiveRes : Except Unit Bool

/-- Observable outcome of a run: notifications in order, whether the marker
file is still present at the end, the WAV artifact produced by capture,
whether the raw WAV was deleted, and the process exit code. -/
structure RunOutcome where
  notifs : List PNotif
  marker : Bool
  wavPath : Option ℕ
  wavDeleted : Bool
  exitCode : ℕ
deriving DecidableEq

/-- The stages of the `try` block after `recorder.stop()` succeeded, in
source order; the result carries `_archive_wav`'s choice (`true` when the
WAV was discarded rather than moved). -/
def pipelineAfterStop (env : RunEnv) : StepOutcome Bool :=
  seqStep env.configRes (fun _ =>
  seqStep env.transcribeRes (fun _ =>
  seqStep env.summarizeRes (fun _ =>
  seqStep (liftRaise env.writeRes) (fun _ =>
    liftRaise env.archiveRes))))

/-- `record_internal`: the recorder start, the pipeline `try/except
Exception`, and the final `clear_state()`. A `.raises` outcome lands in the
`except` branch (failure notification, marker cleared, exit 1); a `.exits`
outcome terminates the process at once — no notification is sent and the
marker file stays in place. -/
def record_internal (env : RunEnv) : RunOutcome :=
  if env.startOk = false then
    ⟨[PNotif.micError], false, none, false, 1⟩
  else
    match env.stopRes with
    | .error _ => ⟨[PNotif.failure], false, none, false, 1⟩
    | .ok wav =>
      match pipelineAfterStop env with
      | .raises => ⟨[PNotif.failure], false, some wav, false, 1⟩
      | .exits => ⟨[], true, some wav, false, 1⟩
      | .ok discarded => ⟨[PNotif.success], false, some wav, discarded, 0⟩

/-- C7: the code misses the claim. Evaluating `record_internal` at a run
where recording started, capture produced the WAV (path 5), config and
transcription succeeded, and summarization then hit a backend error —
`_call_llm` catches the `openai` error and calls `sys.exit(1)` — the
`SystemExit` bypasses `except Exception:` and the trailing `clear_state()`:
the run emits no notification at all (neither the claimed failure
notification nor exactly one terminal notification) and leaves the
recording marker in place instead of clearing it. Only the claim's
never-delete-the-raw-WAV part holds on this path. -/
theorem record_internal_exit_divergence :
    record_internal ⟨true, .ok 5, .ok (), .ok (), .exits, .ok (), .ok false⟩ =
      ⟨[], true, some 5, false, 1⟩ ∧
    (record_internal
        ⟨true, .ok 5, .ok (), .ok (), .exits, .ok (), .ok false⟩).notifs.length = 0 ∧
    (record_internal
        ⟨true, .ok 5, .ok (), .ok (), .exits, .ok (), .ok false⟩).marker = true ∧
    (record_internal
        ⟨true, .ok 5, .ok (), .ok (), .exits, .ok (), .ok false⟩).wavDeleted = false :=
  ⟨rfl, rfl, rfl, rfl⟩

/-! ### API transcription of oversized audio (`_transcribe_api` in
`src/app/transcribe.py`)

For a file over 24 MB, `_transcribe_api` splits the audio into chunk files
in a fresh temporary directory, transcribes them one by one inside `try`,
and in `finally` unlinks every chunk path (`missing_ok=True`) and removes
the temporary directory. `_transcribe_single` exits the process on any API
error, which aborts the loop; chunk paths are modelled as naturals, the
per-chunk backend as an oracle. -/

/-- The temporary directory: the chunk files it holds and whether it still
exists. -/
structure TmpDir where
  files : List ℕ
  present : Bool
deriving DecidableEq

/-- The transcription loop over the chunk paths, in order, aborting at the
first per-chunk failure and collecting the parts otherwise. -/
def transcribeChunksLoop (single : ℕ → Except Unit String) :
    List ℕ → Except Unit (List String)
  | [] => .ok []
  | p :: ps =>
    match single p with
    | .error e => .error e
    | .ok t =>
      match transcribeChunksLoop single ps with
      | .error e => .error e
      | .ok ts => .ok (t :: ts)

/-- The `finally` block: unlink every chunk path, then `rmdir` the
directory (which only succeeds once it is empty). -/
def cleanupTmp (chunkPaths : List ℕ) (d : TmpDir) : TmpDir :=
  let remaining := d.files.filter (fun f => decide (f ∉ chunkPaths))
  ⟨remaining, if remaining.isEmpty then false else d.present⟩

/-- `_transcribe_api` on an oversized file, from the point where
`split_audio` has produced the chunk files: the transcription result (the
parts joined with spaces) and the final state of the temporary directory. -/
def transcribe_api_oversized (chunkPaths : List ℕ)
    (single : ℕ → Except Unit String) : Except Unit String × TmpDir :=
  (Except.map (fun parts => " ".intercalate parts)
      (transcribeChunksLoop single chunkPaths),
   cleanupTmp chunkPaths ⟨chunkPaths, true⟩)

/-- If any chunk fails, the loop aborts with the error. -/
theorem transcribeChunksLoop_error (single : ℕ → Except Unit String)
    (ps : List ℕ) (h : ∃ p ∈ ps, single p = .error ()) :
    transcribeChunksLoop single ps = .error () := by
  induction ps with
  | nil =>
    obtain ⟨p, hp, _⟩ := h
    exact absurd hp (List.not_mem_nil p)
  | cons q qs ih =>
    rw [transcribeChunksLoop]
    obtain ⟨p, hp, herr⟩ := h
    rcases List.mem_cons.1 hp with rfl | hp
    · rw [herr]
    · match hq : single q with
      | .error e => rfl
      | .ok t => rw [ih ⟨p, hp, herr⟩]

/-- C8: the temporary chunk files and their directory are removed no matter
how the loop ends; and if the backend fails on any one chunk, the whole
operation aborts with the error — no partial transcript is returned. -/
theorem transcribe_api_oversized_contract (chunkPaths : List ℕ)
    (single : ℕ → Except Unit String) :
    (transcribe_api_oversized chunkPaths single).2.files = [] ∧
    (transcribe_api_oversized chunkPaths single).2.present = false ∧
    ((∃ p ∈ chunkPaths, single p = .error ()) →
      (transcribe_api_oversized chunkPaths single).1 = .error ()) := by
  have hfilter : chunkPaths.filter (fun f => decide (f ∉ chunkPaths)) = [] := by
    rw [List.filter_eq_nil_iff]
    intro a ha
    simp [ha]
  refine ⟨?_, ?_, ?_⟩
  · show chunkPaths.filter (fun f => decide (f ∉ chunkPaths)) = []
    exact hfilter
  · show (if (chunkPaths.filter (fun f => decide (f ∉ chunkPaths))).isEmpty
        then false else true) = false
    rw [hfilter]
    rfl
  · intro h
    show Except.map (fun parts => " ".intercalate parts)
        (transcribeChunksLoop single chunkPaths) = .error ()
    rw [transcribeChunksLoop_error single chunkPaths h]
    rfl

/-- Witness for C8: two chunks, the second of which fails. -/
theorem transcribe_api_oversized_contract_witness :
    (transcribe_api_oversized [0, 1]
        (fun p => if p = 0 then .ok "a" else .error ())).1 = .error () :=
  (transcribe_api_oversized_contract [0, 1]
      (fun p => if p = 0 then .ok "a" else .error ())).2.2
    ⟨1, by decide, rfl⟩

end Lecture2Obsidian
